import Mathlib

/-!
Verification development for the resource-resolution and caching core of the
`didiercrunch/typst` repository.

The definitions below are a shallow embedding of the Rust sources:
  * `crates/typst-syntax/src/file.rs`  (interner, virtual paths, package specs)
  * `crates/typst-cli/src/world.rs`    (system-path resolution, slot cache)
  * `crates/typst-cli/src/remote.rs`   (asset mirror, HTTP fetcher)

Rust panics (`unwrap`, `expect`, out-of-bounds indexing) are made explicit via
the `PanicOr` type; fallible operations return `Res` values mirroring Rust's
`Result`.  Filesystem paths are modelled as a rooted flag plus a list of
components; URLs as a structure with scheme, host (port already stripped) and
path segments (query/fragment already stripped), which is the granularity at
which the Rust code observes `url::Url` values.
-/

/-- The result of a Rust computation that may panic: either a value or a
process-fatal panic. -/
inductive PanicOr (α : Type) where
  | panic
  | ok (val : α)
deriving DecidableEq, Repr

/-- Mirror of Rust's `Result<α, ε>`. -/
inductive Res (ε α : Type) where
  | ok (val : α)
  | err (e : ε)
deriving DecidableEq, Repr

/-- Extract the success value of a `Res`, if any (Rust `Result::ok`). -/
def Res.toOption {ε α : Type} : Res ε α → Option α
  | .ok a => some a
  | .err _ => none

/-- Whether a `Res` is a success (Rust `Result::is_ok`). -/
def Res.isOk {ε α : Type} : Res ε α → Bool
  | .ok _ => true
  | .err _ => false

/-- The file-error taxonomy used by the cache layer (from `typst::diag`,
mirrored at the granularity `world.rs` uses: `AccessDenied`, `IsDirectory`,
plus opaque variants for the remaining cases). -/
inductive FileError where
  | accessDenied
  | isDirectory
  | notFound (path : String)
  | invalidUtf8
  | packageErr (msg : String)
  | other (msg : String)
deriving DecidableEq, Repr

/-! ## Character-list utilities shared by the parsers -/

/-- Split a character list at every occurrence of `sep` (Rust `str::split`):
the empty list yields one empty part. -/
def splitOnChar (sep : Char) : List Char → List (List Char)
  | [] => [[]]
  | c :: cs =>
    match splitOnChar sep cs with
    | [] => [[]]
    | p :: ps => if c = sep then [] :: p :: ps else (c :: p) :: ps

/-- `unscanny::Scanner::eat_until`: the characters strictly before the first
occurrence of `stop` (all of them if `stop` is absent). -/
def eatUntil (stop : Char) (s : List Char) : List Char :=
  s.takeWhile (fun c => ¬ (c = stop))

/-- The rest of the input after `eatUntil`. -/
def restFrom (stop : Char) (s : List Char) : List Char :=
  s.dropWhile (fun c => ¬ (c = stop))

/-- `unscanny::Scanner::eat_if`: consume `c` if it is next. -/
def eatIf (c : Char) : List Char → List Char
  | [] => []
  | x :: xs => if x = c then xs else x :: xs

/-! ## URL model -/

/-- A parsed URL as observed by the code: scheme (lower-cased), host without
the port (if any), and path segments with query and fragment discarded. -/
structure Url where
  scheme : String
  host : Option String
  pathSegs : List String
deriving DecidableEq, Repr

/-- WHATWG-style path-segment normalization used by the URL path parser:
`.` segments are dropped and `..` segments pop the previous segment. -/
def urlPathNormalize (segs : List String) : List String :=
  segs.foldl
    (fun acc s => if s = ".." then acc.dropLast else if s = "." then acc else acc ++ [s])
    []

/-- Split a URL path string into segments, dropping one leading slash. -/
def pathSegsOf (l : List Char) : List String :=
  match l with
  | [] => []
  | c :: cs =>
    if c = '/' then (splitOnChar '/' cs).map (fun p => String.mk p)
    else (splitOnChar '/' (c :: cs)).map (fun p => String.mk p)

/-- Helper for `schemeSplit`: consume scheme characters until a `:`. -/
def schemeTail (acc : List Char) : List Char → Option (List Char × List Char)
  | [] => none
  | c :: cs =>
    if c = ':' then some (acc, cs)
    else if c.isAlphanum ∨ c = '+' ∨ c = '-' ∨ c = '.' then schemeTail (acc ++ [c]) cs
    else none

/-- Split off a URL scheme: a letter followed by letters, digits, `+`, `-`,
`.`, terminated by `:`.  Returns the scheme and the rest after the colon. -/
def schemeSplit : List Char → Option (List Char × List Char)
  | [] => none
  | c :: cs => if c.isAlpha then schemeTail [c] cs else none

/-- The special URL schemes other than `file` (they require a host). -/
def specialNonFile : List String := ["http", "https", "ws", "wss", "ftp"]

/-- Model of `url::Url::parse`.  Succeeds exactly when the input starts with a
valid scheme; extracts the (lower-cased) scheme, the host with its port
stripped, and the path segments with query/fragment stripped and (for
authority-carrying and `file` URLs) dot-segments normalized.  Special schemes
with a missing host are rejected. -/
def Url.parseStr (s : String) : Option Url :=
  match schemeSplit s.toList with
  | none => none
  | some (schChars, rest) =>
    let scheme := String.mk (schChars.map Char.toLower)
    if rest.take 2 = ['/', '/'] then
      let afterSlashes := rest.drop 2
      let hostPort := afterSlashes.takeWhile (fun c => ¬ (c = '/' ∨ c = '?' ∨ c = '#'))
      let afterHost := afterSlashes.dropWhile (fun c => ¬ (c = '/' ∨ c = '?' ∨ c = '#'))
      let hostChars := hostPort.takeWhile (fun c => ¬ (c = ':'))
      let pathPart := afterHost.takeWhile (fun c => ¬ (c = '?' ∨ c = '#'))
      if scheme ∈ specialNonFile ∧ hostChars = [] then none
      else
        some { scheme := scheme,
               host := if hostChars = [] then none else some (String.mk hostChars),
               pathSegs := urlPathNormalize (pathSegsOf pathPart) }
    else
      if scheme ∈ specialNonFile then none
      else
        let pathPart := rest.takeWhile (fun c => ¬ (c = '?' ∨ c = '#'))
        if scheme = "file" then
          some { scheme := scheme, host := none,
                 pathSegs := urlPathNormalize (pathSegsOf pathPart) }
        else
          some { scheme := scheme, host := none, pathSegs := pathSegsOf pathPart }

/-- Model of `url::Url::from_file_path` on an absolute rooted path: a `file`
URL with no host whose segments are the path's components. -/
def Url.fromFilePath (segs : List String) : Url :=
  { scheme := "file", host := none, pathSegs := segs }

/-- Model of `url::Url::to_file_path`: succeeds only for `file` URLs with no
host (or `localhost`); otherwise the caller's `unwrap` would panic. -/
def Url.toFilePathSegs (u : Url) : Option (List String) :=
  if u.scheme = "file" ∧ (u.host = none ∨ u.host = some "localhost") then some u.pathSegs
  else none

/-! ## Real filesystem paths (`std::path::PathBuf`) -/

/-- A real filesystem path: a rooted flag and its normal components.  This is
the view Rust's `Path::components` exposes (no empty and no `.` components). -/
structure RPath where
  rooted : Bool
  comps : List String
deriving DecidableEq, Repr

/-- Byte length of the rendered path string (`Path::as_os_str().len()`):
each component is preceded by `/` when rooted; components are separated by
`/` when rootless; the bare root is `/` (length 1). -/
def RPath.osLen (p : RPath) : Nat :=
  match p.comps with
  | [] => if p.rooted then 1 else 0
  | cs => (cs.map String.length).sum + cs.length - (if p.rooted then 0 else 1)

/-- `PathBuf::pop`: drop the last component (no-op on a bare root). -/
def RPath.pop (p : RPath) : RPath :=
  { p with comps := p.comps.dropLast }

/-- `PathBuf::push` with a normal component. -/
def RPath.push (p : RPath) (c : String) : RPath :=
  { p with comps := p.comps ++ [c] }

/-! ## Virtual paths (`VirtualPath` in `file.rs`) -/

/-- `VirtualPath` wraps a URL, exactly as in the source. -/
structure VirtualPath where
  url : Url
deriving DecidableEq, Repr

/-- Components of a path string as Rust's `Path::components` yields them for
the purposes of `VirtualPath::new_impl`: split on `/`, dropping empty and
(current-dir) `.` entries; `..` entries are kept. -/
def fsComponents (s : String) : List String :=
  ((splitOnChar '/' s.toList).map (fun p => String.mk p)).filter
    (fun c => ¬ (c = "" ∨ c = "."))

/-- The component-normalization loop of `VirtualPath::new_impl`: `..` pops a
trailing normal component and otherwise accumulates (so only a leading run of
`..` survives); all other components are appended. -/
def normComps (out : List String) : List String → List String
  | [] => out
  | c :: cs =>
    if c = ".." then
      match out.getLast? with
      | some l => if l = ".." then normComps (out ++ [".."]) cs else normComps out.dropLast cs
      | none => normComps (out ++ [".."]) cs
    else normComps (out ++ [c]) cs

/-- `VirtualPath::new` / `new_impl`: if the input parses as a URL it is stored
as that URL; otherwise the input's components are normalized onto a root and
stored as a `file` URL. -/
def VirtualPath.new (s : String) : VirtualPath :=
  match Url.parseStr s with
  | some u => ⟨u⟩
  | none => ⟨Url.fromFilePath (normComps [] (fsComponents s))⟩

/-- `VirtualPath::is_remote`: scheme is `http` or `https`. -/
def VirtualPath.is_remote (vp : VirtualPath) : Bool :=
  vp.url.scheme = "http" ∨ vp.url.scheme = "https"

/-- `VirtualPath::as_rooted_path`: for remote paths, the URL path; otherwise
`to_file_path().unwrap()`, which panics for non-`file`-convertible URLs. -/
def VirtualPath.as_rooted_path (vp : VirtualPath) : PanicOr RPath :=
  if vp.is_remote then .ok ⟨true, vp.url.pathSegs⟩
  else
    match vp.url.toFilePathSegs with
    | some segs => .ok ⟨true, segs⟩
    | none => .panic

/-- `VirtualPath::as_rootless_path`: the rooted path with the root stripped. -/
def VirtualPath.as_rootless_path (vp : VirtualPath) : PanicOr RPath :=
  match vp.as_rooted_path with
  | .panic => .panic
  | .ok rp => .ok (if rp.rooted then ⟨false, rp.comps⟩ else rp)

/-- The component loop of `VirtualPath::resolve`: starting from the root,
`.` and empty components are skipped, `..` pops and fails if the resulting
path string is shorter than the root's, and normal components are pushed. -/
def resolveComps (rootLen : Nat) (out : RPath) : List String → Option RPath
  | [] => some out
  | c :: cs =>
    if c = "." ∨ c = "" then resolveComps rootLen out cs
    else if c = ".." then
      if (out.pop).osLen < rootLen then none else resolveComps rootLen out.pop cs
    else resolveComps rootLen (out.push c) cs

/-- `VirtualPath::resolve`: re-join this virtual path's components onto a real
root, using the root's rendered length as a floor for `..`. -/
def VirtualPath.resolve (vp : VirtualPath) (root : RPath) : PanicOr (Option RPath) :=
  match vp.as_rooted_path with
  | .panic => .panic
  | .ok rp => .ok (resolveComps root.osLen root rp.comps)

/-- Whether a component survives Rust's `Path::components` round trip
(non-empty, not `.`). -/
def goodComp (c : String) : Bool := ¬ (c = "" ∨ c = ".")

/-- Split a relative-or-absolute path string into raw segments the way the
URL path setter sees them (keeps `.` and `..`, drops one leading slash). -/
def rawSegs (s : String) : List String := pathSegsOf s.toList

/-- Whether the path string is absolute (starts with `/`). -/
def startsWithSlash (s : String) : Bool :=
  match s.toList with
  | [] => false
  | c :: _ => c = '/'

/-- `VirtualPath::join`: a fully-parsing URL replaces the path outright; for a
remote path the argument is joined onto the URL's parent directory and passed
through the URL path setter (which normalizes dot segments); otherwise the
argument is joined onto the rooted path's parent and renormalized via
`VirtualPath::new` (panicking if the rooted path itself panics). -/
def VirtualPath.join (vp : VirtualPath) (p : String) : PanicOr VirtualPath :=
  match Url.parseStr p with
  | some u => .ok ⟨u⟩
  | none =>
    if vp.is_remote then
      let parentSegs := ((vp.url.pathSegs.filter goodComp).dropLast)
      let joined := if startsWithSlash p then rawSegs p else parentSegs ++ rawSegs p
      .ok ⟨{ vp.url with pathSegs := urlPathNormalize joined }⟩
    else
      match vp.as_rooted_path with
      | .panic => .panic
      | .ok rp =>
        let base := if startsWithSlash p then [] else (rp.comps.filter goodComp).dropLast
        .ok ⟨Url.fromFilePath (normComps [] (base ++ fsComponents p))⟩

/-! ## Package identity (`PackageSpec`, `PackageVersion` in `file.rs`) -/

/-- A package's version: major, minor, patch (`u32` values, so parsing
enforces `< 2^32`). -/
structure PackageVersion where
  major : Nat
  minor : Nat
  patch : Nat
deriving DecidableEq, Repr

/-- A package identity: namespace (field `nspace`, since `namespace` is a
Lean keyword), name, and version.  Strings are modelled as char lists. -/
structure PackageSpec where
  nspace : List Char
  name : List Char
  version : PackageVersion
deriving DecidableEq, Repr

/-- Modelled from the spec: `is_ident` from the `typst-syntax` crate is not
under `src/`; per the spec a namespace/name must be "a valid identifier per
the host language's identifier rules", modelled as a letter or `_` followed
by letters, digits, `_` or `-`. -/
def is_ident (s : List Char) : Bool :=
  match s with
  | [] => false
  | c :: cs => (c.isAlpha ∨ c = '_') ∧ cs.all (fun x => x.isAlphanum ∨ x = '_' ∨ x = '-')

/-- Numeric value of a decimal digit character. -/
def charDigitVal (c : Char) : Nat := c.toNat - 48

/-- The decimal digit character for `d < 10`. -/
def digitToChar (d : Nat) : Char :=
  if d = 0 then '0' else if d = 1 then '1' else if d = 2 then '2'
  else if d = 3 then '3' else if d = 4 then '4' else if d = 5 then '5'
  else if d = 6 then '6' else if d = 7 then '7' else if d = 8 then '8' else '9'

/-- Fuel-driven decimal rendering (most significant digit first); the fuel
bounds the number of digits. -/
def natToCharsCore : Nat → Nat → List Char
  | 0, _ => []
  | fuel + 1, n =>
    if n < 10 then [digitToChar n]
    else natToCharsCore fuel (n / 10) ++ [digitToChar (n % 10)]

/-- Decimal rendering of a natural number (Rust's `Display` for `u32`). -/
def natToChars (n : Nat) : List Char := natToCharsCore (n + 1) n

/-- The digit part of `u32::from_str`: at least one digit, all digits, value
below `2^32`. -/
def parseU32core (t : List Char) : Option Nat :=
  if t = [] then none
  else if t.all Char.isDigit then
    if t.foldl (fun a c => a * 10 + charDigitVal c) 0 < 2 ^ 32 then
      some (t.foldl (fun a c => a * 10 + charDigitVal c) 0)
    else none
  else none

/-- Model of Rust `u32::from_str`: optional leading `+`, then at least one
digit, value below `2^32`. -/
def parseU32 (s : List Char) : Option Nat :=
  match s with
  | [] => parseU32core []
  | c :: rest => if c = '+' then parseU32core rest else parseU32core (c :: rest)

/-- One component of `PackageVersion::from_str`: empty means the component is
missing; non-numeric or overflowing text is invalid. -/
def versionPart (kind : String) (part : List Char) : Res String Nat :=
  if part = [] then .err ("version number is missing " ++ kind ++ " version")
  else
    match parseU32 part with
    | some v => .ok v
    | none => .err ("not a valid " ++ kind ++ " version")

/-- `PackageVersion::from_str`: split on `.`, take exactly three numeric
components, and reject a fourth. -/
def PackageVersion.from_str (s : List Char) : Res String PackageVersion :=
  match splitOnChar '.' s with
  | [a] =>
    match versionPart "major" a with
    | .err e => .err e
    | .ok _ => .err "version number is missing minor version"
  | [a, b] =>
    match versionPart "major" a, versionPart "minor" b with
    | .err e, _ => .err e
    | .ok _, .err e => .err e
    | .ok _, .ok _ => .err "version number is missing patch version"
  | [a, b, c] =>
    match versionPart "major" a with
    | .err e => .err e
    | .ok ma =>
      match versionPart "minor" b with
      | .err e => .err e
      | .ok mi =>
        match versionPart "patch" c with
        | .err e => .err e
        | .ok pa => .ok ⟨ma, mi, pa⟩
  | a :: b :: c :: _ :: _ =>
    match versionPart "major" a with
    | .err e => .err e
    | .ok _ =>
      match versionPart "minor" b with
      | .err e => .err e
      | .ok _ =>
        match versionPart "patch" c with
        | .err e => .err e
        | .ok _ => .err "version number has unexpected fourth component"
  | [] => .err "version number is missing major version"

/-- `PackageSpec::from_str`: leading `@`, namespace up to `/`, name up to
`:`, then the version. -/
def PackageSpec.from_str (s : List Char) : Res String PackageSpec :=
  match s with
  | '@' :: rest =>
    let ns := eatUntil '/' rest
    if ns = [] then .err "package specification is missing namespace"
    else if ¬ is_ident ns then .err "not a valid package namespace"
    else
      let r1 := eatIf '/' (restFrom '/' rest)
      let nm := eatUntil ':' r1
      if nm = [] then .err "package specification is missing name"
      else if ¬ is_ident nm then .err "not a valid package name"
      else
        let r2 := eatIf ':' (restFrom ':' r1)
        if r2 = [] then .err "package specification is missing version"
        else
          match PackageVersion.from_str r2 with
          | .err e => .err e
          | .ok v => .ok ⟨ns, nm, v⟩
  | _ => .err "package specification must start with @"

/-- `Display` for `PackageVersion`: `major.minor.patch`. -/
def PackageVersion.formatChars (v : PackageVersion) : List Char :=
  natToChars v.major ++ ('.' :: (natToChars v.minor ++ ('.' :: natToChars v.patch)))

/-- `Display` for `PackageSpec`: `@namespace/name:version`. -/
def PackageSpec.formatChars (p : PackageSpec) : List Char :=
  '@' :: (p.nspace ++ ('/' :: (p.name ++ (':' :: p.version.formatChars))))

/-! ## The global interner (`FileId` in `file.rs`) -/

/-- An interned pair: optional package identity and virtual path. -/
abbrev Pair := Option PackageSpec × VirtualPath

/-- The interner state: `from_id` maps a numeric id to its pair; the `to_id`
hash map of the source is recovered by searching `from_id`. -/
structure Interner where
  from_id : List Pair
deriving DecidableEq, Repr

/-- Index of the first occurrence of `p` (the `to_id` lookup). -/
def lookupIdx (p : Pair) : List Pair → Option Nat
  | [] => none
  | q :: qs => if q = p then some 0 else (lookupIdx p qs).map (fun n => n + 1)

/-- `FileId::new`: reuse an existing entry, else insert a fresh one; the
`len().try_into::<u16>().expect("out of file ids")` panics when 65536 pairs
are already interned. -/
def FileId.new (i : Interner) (p : Pair) : PanicOr (Nat × Interner) :=
  match lookupIdx p i.from_id with
  | some idx => .ok (idx, i)
  | none =>
    if i.from_id.length < 65536 then .ok (i.from_id.length, ⟨i.from_id ++ [p]⟩)
    else .panic

/-- `FileId::pair`: recover the interned pair of a handle
(`from_id[usize::from(id)]`, an out-of-range id would panic). -/
def FileId.pairIn (i : Interner) (fid : Nat) : Option Pair :=
  i.from_id[fid]?

/-- `FileId::join`: look the handle up, join the relative path onto its
virtual path, and re-intern with the same package. -/
def FileId.joinIn (i : Interner) (fid : Nat) (p : String) : PanicOr (Nat × Interner) :=
  match FileId.pairIn i fid with
  | none => .panic
  | some (pkg, vp) =>
    match vp.join p with
    | .panic => .panic
    | .ok vp2 => FileId.new i (pkg, vp2)

/-! ## Asset mirror and remote fetcher (`remote.rs`) -/

/-- `AssetMirror`: only the root directory. -/
structure AssetMirror where
  root : RPath
deriving DecidableEq, Repr

/-- `AssetMirror::can_mirror`: the URL has a host. -/
def AssetMirror.can_mirror (_m : AssetMirror) (u : Url) : Bool :=
  u.host.isSome

/-- `AssetMirror::path_for`: `root / host / path-without-leading-slash`
(query, fragment and port are already absent from the model; `host_str` is
`unwrap`ped by the source, so callers must pass URLs with a host). -/
def AssetMirror.path_for (m : AssetMirror) (u : Url) : RPath :=
  { rooted := m.root.rooted, comps := m.root.comps ++ [u.host.getD ""] ++ u.pathSegs }

/-- The environment a single `HTTPRemoteAssetFetcher::fetch` call observes:
the HTTP response (`.err none` = transport failure, `.err (some code)` =
non-success status) and the success of each local filesystem step. -/
structure FetchEnv where
  response : Res (Option Nat) Unit
  tempOk : Bool
  copyOk : Bool
  mkdirOk : Bool
  renameOk : Bool
deriving DecidableEq, Repr

/-- `HTTPRemoteAssetFetcher::fetch` followed by `download_response` /
`_move_file`: every failure is reported as an error string, never a panic. -/
def HTTPRemoteAssetFetcher.fetch (env : FetchEnv) (mirrorRoot : RPath) (u : Url) :
    Res String RPath :=
  match env.response with
  | .err (some code) => .err ("Error " ++ toString code ++ " downloding asset")
  | .err none => .err "Connection error"
  | .ok _ =>
    if ¬ env.tempOk then .err "Cannot create temporary file"
    else if ¬ env.copyOk then .err "Error while downloading"
    else if ¬ env.mkdirOk then .err "Could not create directory"
    else if ¬ env.renameOk then .err "Could not move file"
    else .ok (AssetMirror.path_for ⟨mirrorRoot⟩ u)

/-! ## System-path resolution and the slot cache (`world.rs`) -/

/-- `resolve(root).ok_or(FileError::AccessDenied)` as used by
`system_path_old`. -/
def resolveOrDeny (vp : VirtualPath) (root : RPath) : PanicOr (Res FileError RPath) :=
  match vp.resolve root with
  | .panic => .panic
  | .ok none => .ok (.err .accessDenied)
  | .ok (some p) => .ok (.ok p)

/-- `system_path_old`: package handles resolve against the package root
obtained from `prepare_package` (an external collaborator, passed as a
function), others against the project root. -/
def system_path_old (prepare : PackageSpec → Res FileError RPath) (projectRoot : RPath)
    (pkg : Option PackageSpec) (vp : VirtualPath) : PanicOr (Res FileError RPath) :=
  match pkg with
  | some spec =>
    match prepare spec with
    | .err e => .ok (.err e)
    | .ok root => resolveOrDeny vp root
  | none => resolveOrDeny vp projectRoot

/-- `system_path`: remote handles delegate to the fetcher — whose result is
`unwrap`ped, so a fetch error is a panic — and all other handles go through
`system_path_old`. -/
def system_path (prepare : PackageSpec → Res FileError RPath)
    (fetch : Url → Res String RPath) (projectRoot : RPath)
    (pkg : Option PackageSpec) (vp : VirtualPath) : PanicOr (Res FileError RPath) :=
  if vp.is_remote then
    match fetch vp.url with
    | .ok p => .ok (.ok p)
    | .err _ => .panic
  else system_path_old prepare projectRoot pkg vp

/-- `SlotCell`: cached processed data, content fingerprint of the last read,
and the per-compilation accessed flag. -/
structure SlotCell (T : Type) where
  data : Option (Res FileError T)
  fingerprint : Nat
  accessed : Bool
deriving DecidableEq, Repr

/-- The observable outcome of one `SlotCell::get_or_init` call: the returned
result, the new cell state, whether the path was resolved and read (the
`path().and_then(read)` thunk ran — this covers both filesystem reads and
remote fetches), and whether the decode/parse closure `f` ran. -/
structure LoadOut (T : Type) where
  result : Res FileError T
  cell : SlotCell T
  didRead : Bool
  didProcess : Bool
deriving DecidableEq, Repr

/-- `SlotCell::new`. -/
def SlotCell.new (T : Type) : SlotCell T := ⟨none, 0, false⟩

/-- `SlotCell::reset`: clear the accessed flag only. -/
def SlotCell.reset {T : Type} (c : SlotCell T) : SlotCell T :=
  { c with accessed := false }

/-- `SlotCell::get_or_init`.  `readRes` is the outcome the
`path().and_then(read)` thunk would produce, `hash` is `typst::util::hash128`,
and `f` is the decode/parse closure receiving the bytes and the previous
value.  Mirrors the source: an accessed slot with cached data returns it
without reading; otherwise the bytes are read and hashed, an unchanged
fingerprint returns the cached data without reprocessing, and otherwise the
value is recomputed and stored. -/
def SlotCell.get_or_init {T : Type} (cell : SlotCell T)
    (readRes : Res FileError (List Nat))
    (hash : Res FileError (List Nat) → Nat)
    (f : List Nat → Option T → Res FileError T) : LoadOut T :=
  match (if cell.accessed then cell.data else none) with
  | some d =>
    { result := d, cell := { cell with accessed := true },
      didRead := false, didProcess := false }
  | none =>
    let fp := hash readRes
    match (if cell.fingerprint = fp then cell.data else none) with
    | some d =>
      { result := d, cell := { cell with accessed := true, fingerprint := fp },
        didRead := true, didProcess := false }
    | none =>
      let prev := cell.data.bind Res.toOption
      let value :=
        match readRes with
        | .ok bytes => f bytes prev
        | .err e => .err e
      { result := value,
        cell := { data := some value, fingerprint := fp, accessed := true },
        didRead := true, didProcess := readRes.isOk }

/-! ## Concrete values used by witnesses -/

/-- A sample package identity. -/
def pkgA : PackageSpec := ⟨['n', 's'], ['p', 'k', 'g'], ⟨1, 2, 3⟩⟩

/-- A sample local pair. -/
def pairA : Pair := (none, VirtualPath.new "/a.typ")

/-- A second, distinct local pair. -/
def pairB : Pair := (none, VirtualPath.new "/b.typ")

/-- A package-scoped pair. -/
def pairP : Pair := (some pkgA, VirtualPath.new "/lib.typ")

/-- An interner whose table is full: 65536 entries. -/
def fullInterner : Interner := ⟨List.replicate 65536 pairA⟩

/-- The shape of a lexically normalized component list: a leading run of `..`
(which `new_impl` cannot collapse) followed by components that are neither
`..` nor `.` — i.e. `.` is gone and every internal `..` was collapsed. -/
def NormShape (l : List String) : Prop :=
  ∃ (k : Nat) (rest : List String),
    l = List.replicate k ".." ++ rest ∧ ∀ c ∈ rest, c ≠ ".." ∧ c ≠ "."

/-! ## Interner lemmas -/

theorem lookupIdx_get (p : Pair) :
    ∀ (l : List Pair) (i : Nat), lookupIdx p l = some i → l[i]? = some p := by
  intro l
  induction l with
  | nil => intro i h; simp [lookupIdx] at h
  | cons q qs ih =>
    intro i h
    by_cases hq : q = p
    · simp [lookupIdx, hq] at h
      subst h
      simp [hq]
    · simp only [lookupIdx, if_neg hq, Option.map_eq_some'] at h
      obtain ⟨n, hn, rfl⟩ := h
      simpa using ih n hn

theorem lookupIdx_none_iff (p : Pair) :
    ∀ (l : List Pair), lookupIdx p l = none ↔ p ∉ l := by
  intro l
  induction l with
  | nil => simp [lookupIdx]
  | cons q qs ih =>
    by_cases hq : q = p
    · simp [lookupIdx, hq]
    · simp only [lookupIdx, if_neg hq, Option.map_eq_none', ih, List.mem_cons]
      constructor
      · intro hn hmem
        rcases hmem with hmem | hmem
        · exact hq hmem.symm
        · exact hn hmem
      · intro hn hmem
        exact hn (Or.inr hmem)

theorem lookupIdx_append_self (p : Pair) (l : List Pair) (h : lookupIdx p l = none) :
    lookupIdx p (l ++ [p]) = some l.length := by
  induction l with
  | nil => simp [lookupIdx]
  | cons q qs ih =>
    by_cases hq : q = p
    · simp [lookupIdx, hq] at h
    · simp only [lookupIdx, if_neg hq, Option.map_eq_none'] at h
      simp only [List.cons_append, lookupIdx, if_neg hq, List.append_eq, ih h,
        Option.map_some', List.length_cons]

/-- `FileId::new` returns a handle that recovers exactly the interned pair. -/
theorem FileId.new_ok_get {i i' : Interner} {p : Pair} {id : Nat}
    (h : FileId.new i p = .ok (id, i')) : i'.from_id[id]? = some p := by
  unfold FileId.new at h
  rcases hl : lookupIdx p i.from_id with _ | idx
  · rw [hl] at h
    by_cases hlen : i.from_id.length < 65536
    · rw [if_pos hlen] at h
      cases h
      simp
    · rw [if_neg hlen] at h
      cases h
  · rw [hl] at h
    cases h
    exact lookupIdx_get p i.from_id id hl

/-- `FileId::new` never disturbs previously interned pairs. -/
theorem FileId.new_preserves {i i' : Interner} {p : Pair} {id : Nat}
    (h : FileId.new i p = .ok (id, i')) :
    ∀ (k : Nat) (q : Pair), i.from_id[k]? = some q → i'.from_id[k]? = some q := by
  intro k q hk
  unfold FileId.new at h
  rcases hl : lookupIdx p i.from_id with _ | idx
  · rw [hl] at h
    by_cases hlen : i.from_id.length < 65536
    · rw [if_pos hlen] at h
      cases h
      have hkl : k < i.from_id.length := by
        rcases List.getElem?_eq_some.mp hk with ⟨hlt, _⟩
        exact hlt
      simpa [List.getElem?_append_left hkl] using hk
    · rw [if_neg hlen] at h
      cases h
  · rw [hl] at h
    cases h
    exact hk

/-- Interning the same pair again returns the same handle and state. -/
theorem FileId.new_again {i i' : Interner} {p : Pair} {id : Nat}
    (h : FileId.new i p = .ok (id, i')) : FileId.new i' p = .ok (id, i') := by
  unfold FileId.new at h ⊢
  rcases hl : lookupIdx p i.from_id with _ | idx
  · rw [hl] at h
    by_cases hlen : i.from_id.length < 65536
    · rw [if_pos hlen] at h
      cases h
      rw [lookupIdx_append_self p i.from_id hl]
    · rw [if_neg hlen] at h
      cases h
  · rw [hl] at h
    cases h
    rw [hl]

/-- Below the ceiling, interning always succeeds. -/
theorem FileId.new_ok_of_lt {i : Interner} (p : Pair) (h : i.from_id.length < 65536) :
    ∃ r, FileId.new i p = .ok r := by
  unfold FileId.new
  rcases hl : lookupIdx p i.from_id with _ | idx
  · exact ⟨(i.from_id.length, ⟨i.from_id ++ [p]⟩), by rw [if_pos h]⟩
  · exact ⟨(idx, i), rfl⟩

/-- C3: interning equal pairs returns identical handles, interning distinct
pairs returns distinct handles, and recovering the pair of a returned handle
is total and yields exactly the interned pair
(`path_of(intern(pkg, p)) == p`). -/
theorem c3_intern_roundtrip (i : Interner) (p : Pair) (id1 : Nat) (i1 : Interner)
    (h : FileId.new i p = .ok (id1, i1)) :
    FileId.new i1 p = .ok (id1, i1) ∧
    FileId.pairIn i1 id1 = some p ∧
    (∀ (q : Pair) (id2 : Nat) (i2 : Interner), FileId.new i1 q = .ok (id2, i2) →
      (p ≠ q → id1 ≠ id2) ∧ FileId.pairIn i2 id2 = some q ∧ FileId.pairIn i2 id1 = some p) := by
  refine ⟨FileId.new_again h, FileId.new_ok_get h, ?_⟩
  intro q id2 i2 h2
  have hp2 : FileId.pairIn i2 id1 = some p :=
    FileId.new_preserves h2 id1 p (FileId.new_ok_get h)
  refine ⟨?_, FileId.new_ok_get h2, hp2⟩
  intro hpq heq
  have hq2 := FileId.new_ok_get h2
  unfold FileId.pairIn at hp2
  rw [heq] at hp2
  rw [hp2] at hq2
  exact hpq (Option.some.inj hq2)

/-- Witness for C3 at concrete pairs. -/
theorem c3_witness :
    (FileId.new ⟨[pairA]⟩ pairA = PanicOr.ok (0, ⟨[pairA]⟩)) ∧
    (FileId.pairIn ⟨[pairA]⟩ 0 = some pairA) ∧
    (0 ≠ 1) ∧
    (FileId.pairIn ⟨[pairA, pairB]⟩ 1 = some pairB) := by
  have h : FileId.new ⟨[]⟩ pairA = PanicOr.ok (0, ⟨[pairA]⟩) := by decide
  have h2 : FileId.new ⟨[pairA]⟩ pairB = PanicOr.ok (1, ⟨[pairA, pairB]⟩) := by decide
  have hc := c3_intern_roundtrip ⟨[]⟩ pairA 0 ⟨[pairA]⟩ h
  have hd := hc.2.2 pairB 1 ⟨[pairA, pairB]⟩ h2
  exact ⟨hc.1, hc.2.1, hd.1 (by decide), hd.2.1⟩

/-- C7: interning below the 65536-pair ceiling always succeeds, interning a
65537th distinct pair panics (`expect("out of file ids")`), and interning
never takes the table beyond 65536 entries. -/
theorem c7_intern_ceiling (i : Interner) (p : Pair) :
    (i.from_id.length < 65536 → ∃ r, FileId.new i p = .ok r) ∧
    (i.from_id.length = 65536 → p ∉ i.from_id → FileId.new i p = .panic) ∧
    (∀ (id : Nat) (i2 : Interner), i.from_id.length ≤ 65536 →
      FileId.new i p = .ok (id, i2) → i2.from_id.length ≤ 65536) := by
  refine ⟨FileId.new_ok_of_lt p, ?_, ?_⟩
  · intro hlen hmem
    unfold FileId.new
    rw [(lookupIdx_none_iff p i.from_id).mpr hmem]
    rw [if_neg (by omega)]
  · intro id i2 hle h
    unfold FileId.new at h
    rcases hl : lookupIdx p i.from_id with _ | idx
    · rw [hl] at h
      by_cases hlen : i.from_id.length < 65536
      · rw [if_pos hlen] at h
        cases h
        simp only [List.length_append, List.length_cons, List.length_nil]
        omega
      · rw [if_neg hlen] at h
        cases h
    · rw [hl] at h
      cases h
      exact hle

/-- Witness for C7: a fresh interner interns fine; a full interner panics on
a new distinct pair. -/
theorem c7_witness :
    (∃ r, FileId.new ⟨[]⟩ pairA = PanicOr.ok r) ∧
    (FileId.new fullInterner pairB = PanicOr.panic) := by
  refine ⟨(c7_intern_ceiling ⟨[]⟩ pairA).1 (by decide), ?_⟩
  refine (c7_intern_ceiling fullInterner pairB).2.1 ?_ ?_
  · show (List.replicate 65536 pairA).length = 65536
    rw [List.length_replicate]
  · show pairB ∉ List.replicate 65536 pairA
    rw [List.mem_replicate]
    intro hmem
    exact absurd hmem.2 (by decide)

/-- C10: joining a string that parses as an absolute URL onto a
package-carrying handle yields a handle whose virtual path is that URL
(remote exactly when the scheme is http/https) and whose package identity is
unchanged — `FileId::join` never clears the package. -/
theorem c10_join_keeps_package (i : Interner) (fid : Nat) (pkg : PackageSpec)
    (vp : VirtualPath) (s : String) (u : Url)
    (hfid : FileId.pairIn i fid = some (some pkg, vp))
    (hu : Url.parseStr s = some u)
    (hlen : i.from_id.length < 65536) :
    ∃ (fid2 : Nat) (i2 : Interner),
      FileId.joinIn i fid s = .ok (fid2, i2) ∧
      FileId.pairIn i2 fid2 = some (some pkg, ⟨u⟩) ∧
      ((VirtualPath.mk u).is_remote = true ↔ (u.scheme = "http" ∨ u.scheme = "https")) := by
  have hjoin : vp.join s = .ok ⟨u⟩ := by
    unfold VirtualPath.join
    rw [hu]
  obtain ⟨⟨fid2, i2⟩, hnew⟩ := FileId.new_ok_of_lt (i := i) (some pkg, (⟨u⟩ : VirtualPath)) hlen
  refine ⟨fid2, i2, ?_, FileId.new_ok_get hnew, ?_⟩
  · unfold FileId.joinIn
    rw [hfid]
    simp only [hjoin]
    exact hnew
  · simp [VirtualPath.is_remote]

/-- Witness for C10 at a concrete package handle and URL. -/
theorem c10_witness :
    ∃ (fid2 : Nat) (i2 : Interner),
      FileId.joinIn ⟨[pairP]⟩ 0 "https://example.com/x.typ" = .ok (fid2, i2) ∧
      FileId.pairIn i2 fid2 =
        some (some pkgA, ⟨⟨"https", some "example.com", ["x.typ"]⟩⟩) ∧
      ((VirtualPath.mk ⟨"https", some "example.com", ["x.typ"]⟩).is_remote = true ↔
        ("https" = "http" ∨ "https" = "https")) := by
  exact c10_join_keeps_package ⟨[pairP]⟩ 0 pkgA (VirtualPath.new "/lib.typ")
    "https://example.com/x.typ" ⟨"https", some "example.com", ["x.typ"]⟩
    (by decide) (by decide) (by decide)

/-- C1 (code bug): the fetcher itself reports every failure — transport
error, non-success HTTP status, directory-creation failure, rename failure —
as a recoverable error and a successful fetch delegates the mirror path to
the caller; but `system_path` `unwrap`s the fetch result, so any fetch
failure for a remote handle panics the process instead of being returned. -/
theorem c1_remote_fetch_failure_panics :
    (HTTPRemoteAssetFetcher.fetch ⟨.err none, true, true, true, true⟩
        ⟨true, ["tmp", "typst-001"]⟩ ⟨"https", some "example.com", ["a.typ"]⟩ =
      .err "Connection error") ∧
    (HTTPRemoteAssetFetcher.fetch ⟨.err (some 404), true, true, true, true⟩
        ⟨true, ["tmp", "typst-001"]⟩ ⟨"https", some "example.com", ["a.typ"]⟩ =
      .err "Error 404 downloding asset") ∧
    (HTTPRemoteAssetFetcher.fetch ⟨.ok (), true, true, false, true⟩
        ⟨true, ["tmp", "typst-001"]⟩ ⟨"https", some "example.com", ["a.typ"]⟩ =
      .err "Could not create directory") ∧
    (HTTPRemoteAssetFetcher.fetch ⟨.ok (), true, true, true, false⟩
        ⟨true, ["tmp", "typst-001"]⟩ ⟨"https", some "example.com", ["a.typ"]⟩ =
      .err "Could not move file") ∧
    (system_path (fun _ => .err .accessDenied)
        (fun u => HTTPRemoteAssetFetcher.fetch ⟨.ok (), true, true, true, true⟩
          ⟨true, ["tmp", "typst-001"]⟩ u)
        ⟨true, ["proj"]⟩ none (VirtualPath.new "https://example.com/a.typ") =
      .ok (.ok ⟨true, ["tmp", "typst-001", "example.com", "a.typ"]⟩)) ∧
    (system_path (fun _ => .err .accessDenied)
        (fun u => HTTPRemoteAssetFetcher.fetch ⟨.err none, true, true, true, true⟩
          ⟨true, ["tmp", "typst-001"]⟩ u)
        ⟨true, ["proj"]⟩ none (VirtualPath.new "https://example.com/a.typ") =
      .panic) := by
  decide

/-- C9: `mailto:user@example.com` is accepted by the constructor, classified
non-remote, and then every rooted-path-based operation —
`as_rooted_path`, `as_rootless_path`, `resolve`, `join` — panics on it, so
those operations are not total over constructible virtual paths. -/
theorem c9_nontotal_path_operations :
    (VirtualPath.new "mailto:user@example.com" =
      ⟨⟨"mailto", none, ["user@example.com"]⟩⟩) ∧
    ((VirtualPath.new "mailto:user@example.com").is_remote = false) ∧
    ((VirtualPath.new "mailto:user@example.com").as_rooted_path = .panic) ∧
    ((VirtualPath.new "mailto:user@example.com").as_rootless_path = .panic) ∧
    ((VirtualPath.new "mailto:user@example.com").resolve ⟨true, ["proj"]⟩ = .panic) ∧
    ((VirtualPath.new "mailto:user@example.com").join "x.typ" = .panic) := by
  decide

/-- Counterexample to C2 as stated: `mailto:user@example.com` does not parse
as an http/https URL, yet the constructor stores it as that `mailto` URL —
not as a rooted, normalized filesystem-style path (its rooted-path view
panics), refuting "for every other input the result is a rooted ... path". -/
theorem c2_counterexample :
    (Url.parseStr "mailto:user@example.com" =
      some ⟨"mailto", none, ["user@example.com"]⟩) ∧
    (¬ ("mailto" = "http" ∨ "mailto" = "https")) ∧
    (VirtualPath.new "mailto:user@example.com" =
      ⟨⟨"mailto", none, ["user@example.com"]⟩⟩) ∧
    ((VirtualPath.new "mailto:user@example.com").url.scheme ≠ "file") ∧
    ((VirtualPath.new "mailto:user@example.com").as_rooted_path = PanicOr.panic) := by
  decide

/-- Counterexample to C4 as stated: against the bare root `/` (whose `pop` is
a no-op), resolving `../x/foo.typ` does NOT fail — it returns `/x/foo.typ` —
so "resolving `../x/foo.typ` against any root yields no result" is false. -/
theorem c4_counterexample :
    ((VirtualPath.new "../x/foo.typ").resolve ⟨true, []⟩ =
      PanicOr.ok (some ⟨true, ["x", "foo.typ"]⟩)) ∧
    ((VirtualPath.new "../x/foo.typ").resolve ⟨true, []⟩ ≠ PanicOr.ok none) := by
  decide

/-- Counterexample to C8 as stated: `@ns/name:01.2.3` parses successfully
(Rust's `u32::from_str` accepts a leading zero), but formatting the parsed
value yields `@ns/name:1.2.3`, not the original input, so parse-then-format
is not the identity on every successfully parsed string. -/
theorem c8_counterexample :
    (PackageSpec.from_str "@ns/name:01.2.3".toList =
      .ok ⟨"ns".toList, "name".toList, ⟨1, 2, 3⟩⟩) ∧
    (PackageSpec.formatChars ⟨"ns".toList, "name".toList, ⟨1, 2, 3⟩⟩ ≠
      "@ns/name:01.2.3".toList) := by
  decide

/-- After a load on a not-yet-accessed slot, the cell holds exactly the
returned result, carries the fingerprint of what was read, and is marked
accessed. -/
theorem SlotCell.get_or_init_cell_shape {T : Type} (cell : SlotCell T)
    (readRes : Res FileError (List Nat)) (hash : Res FileError (List Nat) → Nat)
    (f : List Nat → Option T → Res FileError T) (hacc : cell.accessed = false) :
    (cell.get_or_init readRes hash f).cell =
      ⟨some (cell.get_or_init readRes hash f).result, hash readRes, true⟩ := by
  cases cell with
  | mk data fp acc =>
    cases hacc
    by_cases hfp : fp = hash readRes
    · cases data with
      | none => simp [SlotCell.get_or_init, hfp]
      | some d => simp [SlotCell.get_or_init, hfp]
    · cases data with
      | none => simp [SlotCell.get_or_init, hfp]
      | some d => simp [SlotCell.get_or_init, hfp]

/-- C6: a slot already accessed in the current compilation that holds a
cached result (value or failure) returns it without resolving, reading or
fetching anything (`didRead = false`), without reprocessing, and without
changing the slot. -/
theorem c6_memoization {T : Type} (cell : SlotCell T)
    (readRes : Res FileError (List Nat)) (hash : Res FileError (List Nat) → Nat)
    (f : List Nat → Option T → Res FileError T) (d : Res FileError T)
    (hacc : cell.accessed = true) (hdata : cell.data = some d) :
    (cell.get_or_init readRes hash f).result = d ∧
    (cell.get_or_init readRes hash f).didRead = false ∧
    (cell.get_or_init readRes hash f).didProcess = false ∧
    (cell.get_or_init readRes hash f).cell = cell := by
  cases cell with
  | mk data fp acc =>
    cases hacc
    cases hdata
    simp [SlotCell.get_or_init]

/-- Witness for C6 at a concrete cached slot. -/
theorem c6_witness :
    ((SlotCell.get_or_init (T := Nat) ⟨some (.ok 7), 5, true⟩ (.ok [1])
        (fun _ => 99) (fun _ _ => .ok 0)).result = .ok 7) ∧
    ((SlotCell.get_or_init (T := Nat) ⟨some (.ok 7), 5, true⟩ (.ok [1])
        (fun _ => 99) (fun _ _ => .ok 0)).didRead = false) := by
  have h := c6_memoization (T := Nat) ⟨some (.ok 7), 5, true⟩ (.ok [1])
    (fun _ => 99) (fun _ _ => .ok 0) (.ok 7) rfl rfl
  exact ⟨h.1, h.2.1⟩

/-- C5: if the fingerprint of the freshly read bytes (or failure) equals the
slot's stored fingerprint, the previously cached value is returned unchanged
and the decode/parse step does not run; in particular, across two
compilations (a reset in between) with byte-identical content, the second
load returns the very value cached by the first without reprocessing. -/
theorem c5_fingerprint_reuse {T : Type} (cell : SlotCell T)
    (readRes : Res FileError (List Nat)) (hash : Res FileError (List Nat) → Nat)
    (f : List Nat → Option T → Res FileError T) :
    (∀ d : Res FileError T, cell.data = some d → hash readRes = cell.fingerprint →
      (cell.get_or_init readRes hash f).result = d ∧
      (cell.get_or_init readRes hash f).didProcess = false) ∧
    (cell.accessed = false →
      (((cell.get_or_init readRes hash f).cell.reset).get_or_init readRes hash f).result =
        (cell.get_or_init readRes hash f).result ∧
      (((cell.get_or_init readRes hash f).cell.reset).get_or_init readRes hash f).didProcess =
        false) := by
  constructor
  · intro d hdata hh
    cases cell with
    | mk data fp acc =>
      cases hdata
      cases acc
      · have hfp : fp = hash readRes := by simpa using hh.symm
        simp [SlotCell.get_or_init, hfp]
      · simp [SlotCell.get_or_init]
  · intro hacc
    rw [SlotCell.get_or_init_cell_shape cell readRes hash f hacc]
    simp [SlotCell.reset, SlotCell.get_or_init]

/-- Witness for C5: a fresh-compilation load on a slot whose fingerprint
matches the read returns the cached value; and the reset/re-load scenario at
a concrete slot. -/
theorem c5_witness :
    ((SlotCell.get_or_init (T := Nat) ⟨some (.ok 7), 42, false⟩ (.ok [1, 2])
        (fun _ => 42) (fun _ _ => .ok 0)).result = .ok 7) ∧
    ((((SlotCell.get_or_init (T := Nat) ⟨none, 0, false⟩ (.ok [1, 2])
        (fun _ => 42) (fun b _ => .ok b.length)).cell.reset).get_or_init (.ok [1, 2])
        (fun _ => 42) (fun b _ => .ok b.length)).result =
      (SlotCell.get_or_init (T := Nat) ⟨none, 0, false⟩ (.ok [1, 2])
        (fun _ => 42) (fun b _ => .ok b.length)).result) := by
  have h1 := (c5_fingerprint_reuse (T := Nat) ⟨some (.ok 7), 42, false⟩ (.ok [1, 2])
    (fun _ => 42) (fun _ _ => .ok 0)).1 (.ok 7) rfl rfl
  have h2 := (c5_fingerprint_reuse (T := Nat) ⟨none, 0, false⟩ (.ok [1, 2])
    (fun _ => 42) (fun b _ => .ok b.length)).2 rfl
  exact ⟨h1.1, h2.1⟩

/-- A non-empty string has positive length. -/
theorem String.length_pos_of_ne {c : String} (h : c ≠ "") : 0 < c.length := by
  cases c with
  | mk data =>
    cases data with
    | nil => exact absurd rfl h
    | cons x xs => simp [String.length]

/-- Dropping a non-empty trailing component strictly shortens the rendered
path string. -/
theorem RPath.osLen_concat_lt (rt : Bool) (l : List String) (c : String) (hc : c ≠ "") :
    RPath.osLen ⟨rt, l⟩ < RPath.osLen ⟨rt, l ++ [c]⟩ := by
  have hcpos : 0 < c.length := String.length_pos_of_ne hc
  cases l with
  | nil =>
    simp only [RPath.osLen, List.nil_append, List.map_cons, List.map_nil, List.sum_cons,
      List.sum_nil, List.length_cons, List.length_nil]
    cases rt <;> simp <;> omega
  | cons x xs =>
    simp only [RPath.osLen, List.cons_append, List.map_cons, List.map_append, List.map_nil,
      List.sum_cons, List.sum_append, List.sum_nil, List.length_cons, List.length_append,
      List.length_nil]
    cases rt <;> simp <;> omega

/-- The resolve loop preserves "the root is a lexical prefix of the
accumulated path": a `..` at the root boundary strictly shortens the path
below the root length and therefore fails, so a successful resolution always
extends the root. -/
theorem resolveComps_prefix (root : RPath) (hroot : ∀ c ∈ root.comps, c ≠ "") :
    ∀ (cs : List String) (out : RPath), root.rooted = out.rooted →
    root.comps <+: out.comps →
    ∀ res, resolveComps root.osLen out cs = some res →
      root.rooted = res.rooted ∧ root.comps <+: res.comps := by
  intro cs
  induction cs with
  | nil =>
    intro out h1 h2 res hres
    simp only [resolveComps] at hres
    cases hres
    exact ⟨h1, h2⟩
  | cons c cs ih =>
    intro out h1 h2 res hres
    simp only [resolveComps] at hres
    by_cases hskip : c = "." ∨ c = ""
    · rw [if_pos hskip] at hres
      exact ih out h1 h2 res hres
    · rw [if_neg hskip] at hres
      by_cases hdd : c = ".."
      · rw [if_pos hdd] at hres
        by_cases hlt : (out.pop).osLen < root.osLen
        · rw [if_pos hlt] at hres
          cases hres
        · rw [if_neg hlt] at hres
          obtain ⟨t, ht⟩ := h2
          cases t with
          | nil =>
            rcases List.eq_nil_or_concat root.comps with h0 | ⟨l, cl, hcl⟩
            · refine ih out.pop ?_ ?_ res hres
              · exact h1
              · rw [h0]
                exact List.nil_prefix
            · rw [List.concat_eq_append] at hcl
              exfalso
              apply hlt
              have hout : out.comps = l ++ [cl] := by
                rw [← ht, List.append_nil, hcl]
              have hpop : out.pop = ⟨out.rooted, l⟩ := by
                simp [RPath.pop, hout, List.dropLast_concat]
              have hcl_ne : cl ≠ "" := hroot cl (by rw [hcl]; simp)
              have hlt2 := RPath.osLen_concat_lt out.rooted l cl hcl_ne
              rw [hpop]
              have hroot_eq : root = ⟨out.rooted, l ++ [cl]⟩ := by
                cases root with
                | mk rr rc =>
                  simp only at h1 hcl
                  rw [h1, hcl]
              rw [hroot_eq]
              exact hlt2
          | cons t0 ts =>
            refine ih out.pop h1 ?_ res hres
            have : out.pop.comps = root.comps ++ (t0 :: ts).dropLast := by
              simp only [RPath.pop, ← ht]
              exact List.dropLast_append_of_ne_nil root.comps (by simp)
            rw [this]
            exact List.prefix_append _ _
      · rw [if_neg hdd] at hres
        refine ih (out.push c) h1 ?_ res hres
        exact h2.trans (List.prefix_append _ _)

/-- One step of the resolve loop at a `..` component. -/
theorem resolveComps_cons_dots (rootLen : Nat) (out : RPath) (cs : List String) :
    resolveComps rootLen out (".." :: cs) =
      if (out.pop).osLen < rootLen then none else resolveComps rootLen out.pop cs := by
  rfl

/-- C4 (amended): a successful resolution always lexically extends the root
(same rootedness, root components a prefix of the result), resolving
`../x/foo.typ` fails against every root with at least one component, and the
spec's positive example holds. -/
theorem c4_amended (root : RPath) (hroot : ∀ c ∈ root.comps, c ≠ "") (vp : VirtualPath) :
    (∀ (out : RPath), vp.resolve root = .ok (some out) →
      out.rooted = root.rooted ∧ root.comps <+: out.comps) ∧
    (root.comps ≠ [] → (VirtualPath.new "../x/foo.typ").resolve root = .ok none) ∧
    ((VirtualPath.new "/tmp/a/foo.typ").resolve ⟨true, ["tmp", "a"]⟩ =
      .ok (some ⟨true, ["tmp", "a", "tmp", "a", "foo.typ"]⟩)) := by
  refine ⟨?_, ?_, by decide⟩
  · intro out hres
    unfold VirtualPath.resolve at hres
    rcases hrp : vp.as_rooted_path with _ | rp
    · rw [hrp] at hres
      cases hres
    · rw [hrp] at hres
      have h2 : resolveComps root.osLen root rp.comps = some out := PanicOr.ok.inj hres
      have h3 := resolveComps_prefix root hroot rp.comps root rfl (List.prefix_refl _) out h2
      exact ⟨h3.1.symm, h3.2⟩
  · intro hne
    have hrp : (VirtualPath.new "../x/foo.typ").as_rooted_path =
        .ok ⟨true, ["..", "x", "foo.typ"]⟩ := by decide
    unfold VirtualPath.resolve
    rw [hrp]
    rcases List.eq_nil_or_concat root.comps with h0 | ⟨l, cl, hcl⟩
    · exact absurd h0 hne
    · rw [List.concat_eq_append] at hcl
      have hcl_ne : cl ≠ "" := hroot cl (by rw [hcl]; simp)
      have hpop : root.pop = ⟨root.rooted, l⟩ := by
        simp [RPath.pop, hcl, List.dropLast_concat]
      have hlt : (root.pop).osLen < root.osLen := by
        rw [hpop]
        have h4 := RPath.osLen_concat_lt root.rooted l cl hcl_ne
        have h5 : (⟨root.rooted, l ++ [cl]⟩ : RPath) = root := by
          cases root with
          | mk rr rc =>
            simp only at hcl ⊢
            rw [hcl]
        rw [h5] at h4
        exact h4
      show PanicOr.ok (resolveComps root.osLen root ["..", "x", "foo.typ"]) = PanicOr.ok none
      rw [resolveComps_cons_dots, if_pos hlt]

/-- Witness for C4 at the spec's concrete root `/tmp/a`. -/
theorem c4_witness :
    ((VirtualPath.new "../x/foo.typ").resolve ⟨true, ["tmp", "a"]⟩ = PanicOr.ok none) ∧
    ((VirtualPath.new "/tmp/a/foo.typ").resolve ⟨true, ["tmp", "a"]⟩ =
      PanicOr.ok (some ⟨true, ["tmp", "a", "tmp", "a", "foo.typ"]⟩)) ∧
    ((⟨true, ["tmp", "a", "tmp", "a", "foo.typ"]⟩ : RPath).rooted = true ∧
      ["tmp", "a"] <+: (⟨true, ["tmp", "a", "tmp", "a", "foo.typ"]⟩ : RPath).comps) := by
  have hc := c4_amended ⟨true, ["tmp", "a"]⟩ (by decide) (VirtualPath.new "/tmp/a/foo.typ")
  refine ⟨hc.2.1 (by decide), hc.2.2, ?_⟩
  exact hc.1 ⟨true, ["tmp", "a", "tmp", "a", "foo.typ"]⟩ hc.2.2

/-- The empty list is normalized. -/
theorem NormShape.nil : NormShape [] :=
  ⟨0, [], by simp, by simp⟩

/-- Appending a normal component preserves the normalized shape. -/
theorem NormShape.push_normal {l : List String} (h : NormShape l) {c : String}
    (hc1 : c ≠ "..") (hc2 : c ≠ ".") : NormShape (l ++ [c]) := by
  obtain ⟨k, rest, rfl, hrest⟩ := h
  refine ⟨k, rest ++ [c], by simp, ?_⟩
  intro x hx
  rcases List.mem_append.mp hx with hx | hx
  · exact hrest x hx
  · simp at hx
    subst hx
    exact ⟨hc1, hc2⟩

/-- Dropping the last component preserves the normalized shape. -/
theorem NormShape.dropLast {l : List String} (h : NormShape l) : NormShape l.dropLast := by
  obtain ⟨k, rest, rfl, hrest⟩ := h
  cases rest with
  | nil =>
    simp only [List.append_nil]
    cases k with
    | zero => exact ⟨0, [], by simp, by simp⟩
    | succ k0 =>
      rw [List.replicate_succ' k0, List.dropLast_concat]
      exact ⟨k0, [], by simp, by simp⟩
  | cons r rs =>
    rw [List.dropLast_append_of_ne_nil _ (by simp)]
    exact ⟨k, (r :: rs).dropLast, rfl,
      fun c hc => hrest c (List.mem_of_mem_dropLast hc)⟩

/-- Appending `..` when the list ends in `..` (or is empty) preserves the
normalized shape. -/
theorem NormShape.push_dots {l : List String} (h : NormShape l)
    (hl : l.getLast? = none ∨ l.getLast? = some "..") : NormShape (l ++ [".."]) := by
  obtain ⟨k, rest, rfl, hrest⟩ := h
  cases rest with
  | nil =>
    refine ⟨k + 1, [], ?_, by simp⟩
    rw [List.append_nil, List.append_nil, List.replicate_succ' k]
  | cons r rs =>
    exfalso
    have hlast : (List.replicate k ".." ++ r :: rs).getLast? = (r :: rs).getLast? :=
      List.getLast?_append_of_ne_nil _ (by simp)
    rcases hl with hl | hl
    · rw [hlast] at hl
      cases rs <;> simp [List.getLast?] at hl
    · rw [hlast] at hl
      have hmem : ".." ∈ r :: rs := List.mem_of_mem_getLast? hl
      exact (hrest ".." hmem).1 rfl

/-- The `new_impl` normalization loop turns any `.`-free component list into
a normalized one: the result has no `.` and `..` survives only as a leading
run. -/
theorem normComps_shape :
    ∀ (cs : List String) (out : List String), NormShape out → (∀ c ∈ cs, c ≠ ".") →
      NormShape (normComps out cs) := by
  intro cs
  induction cs with
  | nil =>
    intro out h _
    simpa [normComps] using h
  | cons c cs ih =>
    intro out h hcs
    have hcs2 : ∀ x ∈ cs, x ≠ "." := fun x hx => hcs x (List.mem_cons_of_mem _ hx)
    have hcdot : c ≠ "." := hcs c (List.mem_cons_self _ _)
    by_cases hdd : c = ".."
    · subst hdd
      rcases hlast : out.getLast? with _ | lastc
      · rw [show normComps out (".." :: cs) = normComps (out ++ [".."]) cs from by
          simp [normComps, hlast]]
        exact ih _ (h.push_dots (Or.inl hlast)) hcs2
      · by_cases hl2 : lastc = ".."
        · subst hl2
          rw [show normComps out (".." :: cs) = normComps (out ++ [".."]) cs from by
            simp [normComps, hlast]]
          exact ih _ (h.push_dots (Or.inr hlast)) hcs2
        · rw [show normComps out (".." :: cs) = normComps out.dropLast cs from by
            simp [normComps, hlast, hl2]]
          exact ih _ h.dropLast hcs2
    · rw [show normComps out (c :: cs) = normComps (out ++ [c]) cs from by
        simp [normComps, hdd]]
      exact ih _ (h.push_normal hdd hcdot) hcs2

/-- Components produced by `fsComponents` are never `.` (they are filtered
out, matching Rust's `Components`). -/
theorem fsComponents_no_dot (s : String) : ∀ c ∈ fsComponents s, c ≠ "." := by
  intro c hc
  unfold fsComponents at hc
  have h2 := List.of_mem_filter hc
  simp only [decide_not, Bool.not_eq_true', decide_eq_false_iff_not] at h2
  intro hdot
  exact h2 (Or.inr hdot)

/-- The rooted-path view of a constructed `file` URL: always rooted, with
exactly the stored segments. -/
theorem as_rooted_fromFilePath (segs : List String) :
    (VirtualPath.mk (Url.fromFilePath segs)).as_rooted_path = .ok ⟨true, segs⟩ := by
  have hrem : (VirtualPath.mk (Url.fromFilePath segs)).is_remote = false := by
    simp [VirtualPath.is_remote, Url.fromFilePath]
  unfold VirtualPath.as_rooted_path
  rw [hrem]
  simp [Url.toFilePathSegs, Url.fromFilePath]

/-- C2 (amended): a string that parses as a URL (any scheme) is stored as
that URL, remote exactly when the scheme is http/https; any other string
becomes a rooted `file` path whose components are `.`-free with `..`
surviving only as a leading run; and the spec's normalization examples. -/
theorem c2_amended (s : String) :
    (∀ u : Url, Url.parseStr s = some u →
      VirtualPath.new s = ⟨u⟩ ∧
      ((VirtualPath.new s).is_remote = true ↔ (u.scheme = "http" ∨ u.scheme = "https"))) ∧
    (Url.parseStr s = none →
      ∃ segs, VirtualPath.new s = ⟨Url.fromFilePath segs⟩ ∧
        (VirtualPath.new s).as_rooted_path = .ok ⟨true, segs⟩ ∧
        NormShape segs ∧ (VirtualPath.new s).is_remote = false) ∧
    ((VirtualPath.new "./c/../d.txt").as_rooted_path = .ok ⟨true, ["d.txt"]⟩) ∧
    ((VirtualPath.new "c/d.txt").as_rooted_path = .ok ⟨true, ["c", "d.txt"]⟩) ∧
    ((VirtualPath.new "c/d.txt").as_rootless_path = .ok ⟨false, ["c", "d.txt"]⟩) := by
  refine ⟨?_, ?_, by decide, by decide, by decide⟩
  · intro u hu
    have hnew : VirtualPath.new s = ⟨u⟩ := by
      unfold VirtualPath.new
      rw [hu]
    refine ⟨hnew, ?_⟩
    rw [hnew]
    simp [VirtualPath.is_remote]
  · intro hu
    have hnew : VirtualPath.new s = ⟨Url.fromFilePath (normComps [] (fsComponents s))⟩ := by
      unfold VirtualPath.new
      rw [hu]
    refine ⟨normComps [] (fsComponents s), hnew, ?_, ?_, ?_⟩
    · rw [hnew]
      exact as_rooted_fromFilePath _
    · exact normComps_shape (fsComponents s) [] NormShape.nil (fsComponents_no_dot s)
    · rw [hnew]
      simp [VirtualPath.is_remote, Url.fromFilePath]

/-- Witness for C2: a remote URL input and a normalized filesystem input. -/
theorem c2_witness :
    (VirtualPath.new "https://example.com/a/foo.typ" =
      ⟨⟨"https", some "example.com", ["a", "foo.typ"]⟩⟩) ∧
    ((VirtualPath.new "https://example.com/a/foo.typ").is_remote = true) ∧
    (∃ segs, VirtualPath.new "./c/../d.txt" = ⟨Url.fromFilePath segs⟩ ∧
      (VirtualPath.new "./c/../d.txt").as_rooted_path = .ok ⟨true, segs⟩ ∧
      NormShape segs ∧ (VirtualPath.new "./c/../d.txt").is_remote = false) := by
  have h1 := (c2_amended "https://example.com/a/foo.typ").1
    ⟨"https", some "example.com", ["a", "foo.typ"]⟩ (by decide)
  have h2 := (c2_amended "./c/../d.txt").2.1 (by decide)
  exact ⟨h1.1, h1.2.mpr (Or.inr rfl), h2⟩

/-- Every rendered digit character is a decimal digit. -/
theorem digitToChar_isDigit (d : Nat) : (digitToChar d).isDigit = true := by
  unfold digitToChar
  split_ifs <;> decide

/-- Rendering then reading a digit below 10 is the identity. -/
theorem charDigitVal_digitToChar {d : Nat} (h : d < 10) :
    charDigitVal (digitToChar d) = d := by
  unfold digitToChar
  split_ifs with h0 h1 h2 h3 h4 h5 h6 h7 h8
  · subst h0; decide
  · subst h1; decide
  · subst h2; decide
  · subst h3; decide
  · subst h4; decide
  · subst h5; decide
  · subst h6; decide
  · subst h7; decide
  · subst h8; decide
  · have h9 : d = 9 := by omega
    subst h9; decide

/-- Every character the decimal renderer emits is a digit character. -/
theorem natToCharsCore_mem (fuel : Nat) :
    ∀ (n : Nat) (c : Char), c ∈ natToCharsCore fuel n → ∃ d, c = digitToChar d := by
  induction fuel with
  | zero =>
    intro n c hc
    simp [natToCharsCore] at hc
  | succ fuel ih =>
    intro n c hc
    unfold natToCharsCore at hc
    by_cases h10 : n < 10
    · rw [if_pos h10] at hc
      simp at hc
      exact ⟨n, hc⟩
    · rw [if_neg h10] at hc
      rcases List.mem_append.mp hc with hc | hc
      · exact ih (n / 10) c hc
      · simp at hc
        exact ⟨n % 10, hc⟩

/-- The decimal renderer never returns the empty list (with positive fuel). -/
theorem natToCharsCore_ne_nil (fuel n : Nat) (h : 0 < fuel) :
    natToCharsCore fuel n ≠ [] := by
  cases fuel with
  | zero => omega
  | succ f =>
    unfold natToCharsCore
    by_cases h10 : n < 10
    · rw [if_pos h10]; simp
    · rw [if_neg h10]; simp

/-- Folding the decimal digits of `n` back into a number recovers `n` (with
an arbitrary accumulator). -/
theorem natToCharsCore_decode (fuel : Nat) :
    ∀ (n a : Nat), n < fuel →
      List.foldl (fun x c => x * 10 + charDigitVal c) a (natToCharsCore fuel n) =
        a * 10 ^ (natToCharsCore fuel n).length + n := by
  induction fuel with
  | zero =>
    intro n a h
    exact absurd h (Nat.not_lt_zero n)
  | succ fuel ih =>
    intro n a h
    unfold natToCharsCore
    by_cases h10 : n < 10
    · rw [if_pos h10]
      simp only [List.foldl_cons, List.foldl_nil, List.length_cons, List.length_nil,
        charDigitVal_digitToChar h10, Nat.zero_add, pow_one]
    · rw [if_neg h10]
      have hdiv : n / 10 < fuel := by
        have hlt : n / 10 < n := Nat.div_lt_self (by omega) (by omega)
        omega
      rw [List.foldl_append, ih (n / 10) a hdiv]
      simp only [List.foldl_cons, List.foldl_nil,
        charDigitVal_digitToChar (Nat.mod_lt n (by omega)), List.length_append,
        List.length_cons, List.length_nil]
      have hmod : 10 * (n / 10) + n % 10 = n := Nat.div_add_mod n 10
      calc (a * 10 ^ (natToCharsCore fuel (n / 10)).length + n / 10) * 10 + n % 10
          = a * (10 ^ (natToCharsCore fuel (n / 10)).length * 10) +
              (10 * (n / 10) + n % 10) := by ring
        _ = a * 10 ^ ((natToCharsCore fuel (n / 10)).length + 1) + n := by
            rw [← pow_succ, hmod]

/-- Decimal rendering decodes back to the number. -/
theorem natToChars_decode (n : Nat) :
    List.foldl (fun x c => x * 10 + charDigitVal c) 0 (natToChars n) = n := by
  unfold natToChars
  have h := natToCharsCore_decode (n + 1) n 0 (Nat.lt_succ_self n)
  simpa using h

/-- Decimal rendering is never empty. -/
theorem natToChars_ne_nil (n : Nat) : natToChars n ≠ [] :=
  natToCharsCore_ne_nil (n + 1) n (Nat.succ_pos n)

/-- Decimal rendering consists only of digit characters. -/
theorem natToChars_digits (n : Nat) : ∀ c ∈ natToChars n, c.isDigit = true := by
  intro c hc
  obtain ⟨d, rfl⟩ := natToCharsCore_mem (n + 1) n c hc
  exact digitToChar_isDigit d

/-- `u32::from_str` inverts decimal rendering for values below `2^32`. -/
theorem parseU32_natToChars {n : Nat} (h : n < 2 ^ 32) :
    parseU32 (natToChars n) = some n := by
  have hdig : (natToChars n).all Char.isDigit = true :=
    List.all_eq_true.mpr (natToChars_digits n)
  have hfold := natToChars_decode n
  rcases hl : natToChars n with _ | ⟨c, cs⟩
  · exact absurd hl (natToChars_ne_nil n)
  · have hcdig : c.isDigit = true := natToChars_digits n c (by rw [hl]; simp)
    have hplus : c ≠ '+' := by
      intro hp
      subst hp
      exact absurd hcdig (by decide)
    rw [hl] at hdig hfold
    simp only [parseU32]
    rw [if_neg hplus]
    unfold parseU32core
    rw [if_neg (by simp), if_pos hdig, hfold, if_pos h]

/-- No digit character is a dot. -/
theorem natToChars_no_dot (n : Nat) : '.' ∉ natToChars n := by
  intro hm
  have h := natToChars_digits n '.' hm
  exact absurd h (by decide)

/-- `splitOnChar` never yields zero parts. -/
theorem splitOnChar_ne_nil (sep : Char) : ∀ (l : List Char), splitOnChar sep l ≠ [] := by
  intro l
  induction l with
  | nil => simp [splitOnChar]
  | cons c cs ih =>
    unfold splitOnChar
    rcases hs : splitOnChar sep cs with _ | ⟨p, ps⟩
    · simp
    · by_cases hc : c = sep <;> simp [hc]

/-- A separator-free list splits into a single part. -/
theorem splitOnChar_no_sep (sep : Char) :
    ∀ (xs : List Char), sep ∉ xs → splitOnChar sep xs = [xs] := by
  intro xs
  induction xs with
  | nil => intro _; rfl
  | cons c cs ih =>
    intro h
    have hc : ¬ (c = sep) := fun hh => h (by rw [hh]; exact List.mem_cons_self _ _)
    have hcs : sep ∉ cs := fun hm => h (List.mem_cons_of_mem _ hm)
    simp only [splitOnChar, ih hcs, if_neg hc]

/-- Splitting at the first separator. -/
theorem splitOnChar_append (sep : Char) :
    ∀ (xs ys : List Char), sep ∉ xs →
      splitOnChar sep (xs ++ sep :: ys) = xs :: splitOnChar sep ys := by
  intro xs
  induction xs with
  | nil =>
    intro ys _
    show splitOnChar sep (sep :: ys) = [] :: splitOnChar sep ys
    rcases hs : splitOnChar sep ys with _ | ⟨p, ps⟩
    · exact absurd hs (splitOnChar_ne_nil sep ys)
    · simp [splitOnChar, hs]
  | cons c cs ih =>
    intro ys h
    have hc : ¬ (c = sep) := fun hh => h (by rw [hh]; exact List.mem_cons_self _ _)
    have hcs : sep ∉ cs := fun hm => h (List.mem_cons_of_mem _ hm)
    show splitOnChar sep (c :: (cs ++ sep :: ys)) = (c :: cs) :: splitOnChar sep ys
    simp only [splitOnChar, ih ys hcs, if_neg hc]

/-- A version component renders to a successfully parsing part. -/
theorem versionPart_natToChars (kind : String) {n : Nat} (h : n < 2 ^ 32) :
    versionPart kind (natToChars n) = .ok n := by
  unfold versionPart
  rw [if_neg (natToChars_ne_nil n), parseU32_natToChars h]

/-- Formatting a version then parsing it recovers the version (components are
`u32` values, hence below `2^32`). -/
theorem packageVersion_roundtrip (v : PackageVersion)
    (h1 : v.major < 2 ^ 32) (h2 : v.minor < 2 ^ 32) (h3 : v.patch < 2 ^ 32) :
    PackageVersion.from_str (PackageVersion.formatChars v) = .ok v := by
  have hsplit : splitOnChar '.' (PackageVersion.formatChars v) =
      [natToChars v.major, natToChars v.minor, natToChars v.patch] := by
    unfold PackageVersion.formatChars
    rw [splitOnChar_append '.' _ _ (natToChars_no_dot v.major),
      splitOnChar_append '.' _ _ (natToChars_no_dot v.minor),
      splitOnChar_no_sep '.' _ (natToChars_no_dot v.patch)]
  unfold PackageVersion.from_str
  rw [hsplit]
  simp only [versionPart_natToChars _ h1, versionPart_natToChars _ h2,
    versionPart_natToChars _ h3]

/-- A valid identifier is non-empty. -/
theorem is_ident_ne_nil {s : List Char} (h : is_ident s = true) : s ≠ [] := by
  intro hs
  subst hs
  simp [is_ident] at h

/-- A character that is not alphanumeric, `_` or `-` cannot occur in a valid
identifier. -/
theorem is_ident_not_mem {s : List Char} (h : is_ident s = true) (x : Char)
    (hx1 : x.isAlphanum = false) (hx2 : x ≠ '_') (hx3 : x ≠ '-') : x ∉ s := by
  cases s with
  | nil => simp
  | cons c cs =>
    simp only [is_ident, Bool.decide_and, Bool.and_eq_true, decide_eq_true_eq] at h
    intro hmem
    rcases List.mem_cons.mp hmem with rfl | hmem
    · rcases h.1 with ha | ha
      · have : x.isAlphanum = true := by
          unfold Char.isAlphanum
          rw [ha]
          rfl
        rw [hx1] at this
        exact Bool.noConfusion this
      · exact hx2 ha
    · have hall := List.all_eq_true.mp h.2 x hmem
      simp only [decide_eq_true_eq] at hall
      rcases hall with ha | ha | ha
      · rw [hx1] at ha
        exact Bool.noConfusion ha
      · exact hx2 ha
      · exact hx3 ha

/-- `eat_until` stops exactly at the first separator. -/
theorem eatUntil_append (stop : Char) (ys : List Char) :
    ∀ (xs : List Char), stop ∉ xs → eatUntil stop (xs ++ stop :: ys) = xs := by
  intro xs
  induction xs with
  | nil =>
    intro _
    simp [eatUntil]
  | cons c cs ih =>
    intro h
    have hc : ¬ (c = stop) := fun hh => h (by rw [hh]; exact List.mem_cons_self _ _)
    have hcs : stop ∉ cs := fun hm => h (List.mem_cons_of_mem _ hm)
    have ih2 := ih hcs
    simp only [List.cons_append, eatUntil, List.takeWhile_cons, decide_not] at ih2 ⊢
    simp [hc, ih2]

/-- The scanner's remainder after `eat_until` starts at the separator. -/
theorem restFrom_append (stop : Char) (ys : List Char) :
    ∀ (xs : List Char), stop ∉ xs → restFrom stop (xs ++ stop :: ys) = stop :: ys := by
  intro xs
  induction xs with
  | nil =>
    intro _
    simp [restFrom]
  | cons c cs ih =>
    intro h
    have hc : ¬ (c = stop) := fun hh => h (by rw [hh]; exact List.mem_cons_self _ _)
    have hcs : stop ∉ cs := fun hm => h (List.mem_cons_of_mem _ hm)
    have ih2 := ih hcs
    simp only [List.cons_append, restFrom, List.dropWhile_cons, decide_not] at ih2 ⊢
    simp [hc, ih2]

/-- `eat_if` consumes a matching leading character. -/
theorem eatIf_cons (c : Char) (ys : List Char) : eatIf c (c :: ys) = ys := by
  simp [eatIf]

/-- Formatting a well-formed package identity and parsing it back recovers
it exactly. -/
theorem packageSpec_roundtrip (p : PackageSpec)
    (hns : is_ident p.nspace = true) (hnm : is_ident p.name = true)
    (h1 : p.version.major < 2 ^ 32) (h2 : p.version.minor < 2 ^ 32)
    (h3 : p.version.patch < 2 ^ 32) :
    PackageSpec.from_str (PackageSpec.formatChars p) = .ok p := by
  have hs1 : '/' ∉ p.nspace := is_ident_not_mem hns '/' (by decide) (by decide) (by decide)
  have hs2 : ':' ∉ p.name := is_ident_not_mem hnm ':' (by decide) (by decide) (by decide)
  have hvc : p.version.formatChars ≠ [] := by
    unfold PackageVersion.formatChars
    rcases hmaj : natToChars p.version.major with _ | ⟨c, cs⟩
    · exact absurd hmaj (natToChars_ne_nil _)
    · simp
  have ha : eatUntil '/' (p.nspace ++ ('/' :: (p.name ++ (':' :: p.version.formatChars)))) =
      p.nspace := eatUntil_append '/' _ p.nspace hs1
  have hb : restFrom '/' (p.nspace ++ ('/' :: (p.name ++ (':' :: p.version.formatChars)))) =
      '/' :: (p.name ++ (':' :: p.version.formatChars)) := restFrom_append '/' _ p.nspace hs1
  have hc2 : eatUntil ':' (p.name ++ (':' :: p.version.formatChars)) = p.name :=
    eatUntil_append ':' _ p.name hs2
  have hd : restFrom ':' (p.name ++ (':' :: p.version.formatChars)) =
      ':' :: p.version.formatChars := restFrom_append ':' _ p.name hs2
  unfold PackageSpec.formatChars
  simp only [PackageSpec.from_str]
  rw [ha, if_neg (is_ident_ne_nil hns), if_neg (not_not_intro hns), hb, eatIf_cons, hc2,
    if_neg (is_ident_ne_nil hnm), if_neg (not_not_intro hnm), hd, eatIf_cons,
    if_neg hvc, packageVersion_roundtrip p.version h1 h2 h3]

/-- C8 (amended): parsing-then-formatting is the identity on the canonical
example `@ns/name:1.2.3` (and format-then-parse is the identity on every
well-formed identity), while versions with two or four components are
rejected; parse-then-format is NOT the identity on every accepted string
(see the counterexample with a leading zero). -/
theorem c8_amended (p : PackageSpec)
    (hns : is_ident p.nspace = true) (hnm : is_ident p.name = true)
    (h1 : p.version.major < 2 ^ 32) (h2 : p.version.minor < 2 ^ 32)
    (h3 : p.version.patch < 2 ^ 32) :
    PackageSpec.from_str (PackageSpec.formatChars p) = .ok p ∧
    (PackageSpec.from_str "@ns/name:1.2.3".toList =
      .ok ⟨"ns".toList, "name".toList, ⟨1, 2, 3⟩⟩) ∧
    (PackageSpec.formatChars ⟨"ns".toList, "name".toList, ⟨1, 2, 3⟩⟩ =
      "@ns/name:1.2.3".toList) ∧
    (PackageSpec.from_str "@ns/name:1.2".toList =
      .err "version number is missing patch version") ∧
    (PackageSpec.from_str "@ns/name:1.2.3.4".toList =
      .err "version number has unexpected fourth component") :=
  ⟨packageSpec_roundtrip p hns hnm h1 h2 h3, by decide, by decide, by decide, by decide⟩

/-- Witness for C8 at the concrete identity `@ns/name:1.2.3`. -/
theorem c8_witness :
    PackageSpec.from_str
        (PackageSpec.formatChars ⟨"ns".toList, "name".toList, ⟨1, 2, 3⟩⟩) =
      .ok ⟨"ns".toList, "name".toList, ⟨1, 2, 3⟩⟩ :=
  (c8_amended ⟨"ns".toList, "name".toList, ⟨1, 2, 3⟩⟩ (by decide) (by decide)
    (by decide) (by decide) (by decide)).1
